import Mathlib

/-!
Shallow embedding of the inkbot comment-reply pipeline.

Source embedded: src/inkbot.py — the module-level helpers find_best_match and
format_comment, and the InkBot class methods start (rule compilation step),
___handle_exception, __reply_to, __comment_action and __inkbot_loop.

Modelling conventions:
* A compiled regular expression is abstracted as a search function of type
  String → Option String returning the matched substring (group 0) of the
  leftmost match, or none when the pattern finds no match in the token.
* The one concrete pattern used by __comment_action, raw "\[\[.*?\]\]", is
  embedded directly (closeToken / findallFuel): a match is a literal "[[",
  then the shortest run of non-newline characters up to the first "]]",
  delimiters included; re.findall collects non-overlapping matches from left
  to right.
* Python exceptions become explicit outcome values, and the externally
  observable actions (publish attempts, sleeps, dedupe-store operations,
  session initialisation steps, per-token matching) are recorded in an
  explicit event trace.
* The shelve-backed dedupe store is a Store with an in-memory view (data)
  and a durable view (disk); sync and close flush data to disk, reopening
  reads the durable view.
-/

namespace Inkbot

/-- Airtable row fields used by the bot, as read by format_comment
(src/inkbot.py lines 106-111): the optional "Ink Name" string, the optional
"Imgur Address" string, and the optional "Scanned Page" attachment list
(modelled as the list of the attachments' url strings). -/
structure InkFields where
  inkName : Option String
  imgurAddress : Option String
  scannedPage : Option (List String)

/-- A loaded ink row after InkBot.start's compilation loop: the row fields
plus the compiled_re entry (none models a row where the compiled regex was
somehow not populated, the case find_best_match guards against). -/
structure Ink where
  compiled_re : Option (String → Option String)
  fields : InkFields

/-- A raw Airtable row before compilation: regexField is fields.get("RegEx")
as an Option, alongside the fields used later. -/
structure RawRule where
  regexField : Option String
  fields : InkFields

/-- Embedding of the rule-compilation loop in InkBot.start (src/inkbot.py
lines 176-178): for each row, fields section is indexed with the literal key
"RegEx"; a missing key raises KeyError, modelled as an error value. The
compile argument abstracts re.compile with IGNORECASE. -/
def compileRules (compile : String → String → Option String) :
    List RawRule → Except Unit (List Ink)
  | [] => .ok []
  | r :: rest =>
    match r.regexField with
    | none => .error ()
    | some pat =>
      (compileRules compile rest).map
        (fun l => { compiled_re := some (compile pat), fields := r.fields } :: l)

/-- Embedding of the candidate-collection loop of find_best_match
(src/inkbot.py lines 65-73): skip inks whose compiled_re is not populated,
search the token, and keep (matched substring, ink) pairs in rule order. -/
def candidateMatches (inklist : List Ink) (token : String) :
    List (String × Ink) :=
  inklist.filterMap (fun ink =>
    match ink.compiled_re with
    | none => none
    | some re => (re token).map (fun m => (m, ink)))

/-- Embedding of the selection loop of find_best_match (src/inkbot.py lines
74-81): best_match starts as None, longest_substr starts at 5, and each
candidate whose matched-substring length strictly exceeds the running
longest replaces the current best. -/
def selectLoop : List (String × Ink) → Option Ink → Nat → Option Ink × Nat
  | [], best, longest => (best, longest)
  | (m, ink) :: rest, best, longest =>
    if m.length > longest then selectLoop rest (some ink) m.length
    else selectLoop rest best longest

/-- Embedding of find_best_match (src/inkbot.py lines 43-82). -/
def find_best_match (inklist : List Ink) (token : String) : Option Ink :=
  (selectLoop (candidateMatches inklist token) none 5).1

/-- Running maximum of matched-substring lengths over a candidate list,
folded from an initial bound, mirroring the shape of the selection loop. -/
def maxFrom (L : Nat) : List (String × Ink) → Nat
  | [] => L
  | p :: rest => maxFrom (max L p.1.length) rest

/-- Modelled from the spec: the greatest matched-substring length among the
candidates (0 when there is none). -/
def maxMatchLen (cands : List (String × Ink)) : Nat :=
  cands.foldr (fun p a => max p.1.length a) 0

/-- Modelled from the spec (section 4.2): scan all rules, record the matched
substring's length of each rule that matches; select the rule with the
strictly greatest length, qualifying only when that length is greater
than 5; on a tie at the maximal length the first rule in rule order wins;
otherwise return none. -/
def bestMatchSpec (inklist : List Ink) (token : String) : Option Ink :=
  let cands := candidateMatches inklist token
  let m := maxMatchLen cands
  if m > 5 then (cands.find? (fun p => p.1.length == m)).map (fun p => p.2)
  else none

/-- Python string truthiness for an optional string: None and the empty
string are falsy. -/
def pyTruthy : Option String → Bool
  | none => false
  | some s => s != ""

/-- Embedding of the ink-url extraction in format_comment (src/inkbot.py
lines 107-111): when "Scanned Page" is absent use fields.get("Imgur
Address"); when present, index element 0 of the attachment list, which
raises IndexError on an empty list (modelled as an error value). -/
def inkUrlOf (ink : Ink) : Except Unit (Option String) :=
  match ink.fields.scannedPage with
  | none => .ok ink.fields.imgurAddress
  | some [] => .error ()
  | some (u :: _) => .ok (some u)

/-- Embedding of the accumulation loop of format_comment (src/inkbot.py
lines 101-119): skip None entries, extract name and url, skip rows where
either is falsy, otherwise append one markdown list line. -/
def formatLoop (acc : String) : List (Option Ink) → Except Unit String
  | [] => .ok acc
  | none :: rest => formatLoop acc rest
  | some ink :: rest =>
    match inkUrlOf ink with
    | .error e => .error e
    | .ok ink_url =>
      if pyTruthy ink.fields.inkName && pyTruthy ink_url then
        formatLoop
          (acc ++ "* [" ++ ink.fields.inkName.getD "" ++ "](" ++
            ink_url.getD "" ++ ")\n") rest
      else formatLoop acc rest

/-- Embedding of format_comment (src/inkbot.py lines 84-119). -/
def format_comment (ink_matches : List (Option Ink)) : Except Unit String :=
  formatLoop "" ink_matches

/-- Embedding of Python str.replace with a one-character pattern and empty
replacement, as used in text.replace with a backslash pattern
(src/inkbot.py line 260): scan left to right, dropping every occurrence. -/
def pyReplace (old : Char) : List Char → List Char
  | [] => []
  | ch :: rest => if ch = old then pyReplace old rest else ch :: pyReplace old rest

/-- The backslash-stripping step of __comment_action (src/inkbot.py
line 260). -/
def stripBackslashes (s : String) : String := String.mk (pyReplace '\\' s.data)

/-- Lazy completion of a bracket token: given the characters after an
opening "[[", find the shortest prefix of non-newline characters followed
by the first "]]" (the dot of the pattern does not match a newline);
return that middle together with the remaining characters after the
closing "]]". -/
def closeToken : List Char → Option (List Char × List Char)
  | [] => none
  | ']' :: ']' :: rest => some ([], rest)
  | c :: rest =>
    if c = '\n' then none
    else (closeToken rest).map (fun p => (c :: p.1, p.2))

/-- Fuel-indexed scan implementing re.findall for the bracket-token pattern
(src/inkbot.py lines 250 and 262): at each position, if a "[[" opens here
and can be lazily closed on the same line, emit the full delimited match
and continue after it; otherwise advance one character. The fuel is an
upper bound on the number of scan steps; the character count of the
scanned text always suffices. -/
def findallFuel : Nat → List Char → List (List Char)
  | 0, _ => []
  | _ + 1, [] => []
  | fuel + 1, '[' :: '[' :: rest =>
    match closeToken rest with
    | some (mid, after) =>
      ('[' :: '[' :: (mid ++ [']', ']'])) :: findallFuel fuel after
    | none => findallFuel fuel ('[' :: rest)
  | fuel + 1, _ :: rest => findallFuel fuel rest

/-- The token-extraction step of __comment_action (src/inkbot.py line 262). -/
def findallTokens (s : String) : List String :=
  (findallFuel s.data.length s.data).map (fun cs => String.mk cs)

/-- The shelve-backed dedupe store self.PostList: data is the in-memory
mapping, disk the durably flushed view, isOpen the handle state. -/
structure Store where
  data : List (String × String)
  disk : List (String × String)
  isOpen : Bool
deriving DecidableEq

/-- Membership test sid in self.PostList (src/inkbot.py line 254). -/
def Store.contains (s : Store) (sid : String) : Bool :=
  s.data.any (fun p => p.1 == sid)

/-- Key assignment self.PostList of comment id := reply id (src/inkbot.py
line 245). -/
def Store.setItem (s : Store) (sid rid : String) : Store :=
  { s with data := (sid, rid) :: s.data }

/-- self.PostList.sync (src/inkbot.py line 246): flush the in-memory view
to durable storage. -/
def Store.sync (s : Store) : Store := { s with disk := s.data }

/-- self.PostList.close (src/inkbot.py lines 213 and 283): flush and close
the handle. -/
def Store.close (s : Store) : Store := { s with disk := s.data, isOpen := false }

/-- shelve.open on the persisted file (src/inkbot.py line 184): the
in-memory view starts from the durable contents. -/
def Store.reopen (disk : List (String × String)) : Store :=
  { data := disk, disk := disk, isOpen := true }

/-- Externally observable actions of the pipeline, in execution order. -/
inductive Event where
  | publishAttempt (sid : String) (body : String)
  | sleep
  | closeStore
  | openStore
  | login
  | loadRules
  | dedupeWrite (sid : String) (rid : String)
  | syncStore
  | matchToken (token : String)
deriving DecidableEq

/-- Outcome of one comment.reply call (src/inkbot.py line 230): success
with a reply id, a praw APIException (the transient kind), or any other
exception (the non-transient kind). -/
inductive ReplyResult where
  | success (replyId : String)
  | apiError
  | otherError
deriving DecidableEq

/-- Observable actions of InkBot.___handle_exception before control
re-enters start (src/inkbot.py lines 209-216): close the dedupe store,
then sleep the fixed wait interval. -/
def handleExceptionEvents : List Event := [Event.closeStore, Event.sleep]

/-- How the retry while-loop of __reply_to was left: broke carries the
successful reply id; handled means ___handle_exception ran inside the loop
(outOfRetries tells whether via the branch guarded by retries less than 1,
retriesLeft is the counter value at that point); fellThrough carries the
counter value at normal loop exit. -/
inductive LoopExit where
  | broke (replyId : String)
  | handled (outOfRetries : Bool) (retriesLeft : Nat)
  | fellThrough (retriesLeft : Nat)
deriving DecidableEq

/-- Embedding of the retry loop of __reply_to (src/inkbot.py lines
227-244): retries starts at 20 and the loop runs while retries is greater
than 1 (the 0 and 1 cases below are the failing loop condition). Each
iteration attempts the reply: on success the loop breaks; on APIException
the counter is decremented, the fixed interval is slept, and the
out-of-retries test fires ___handle_exception when the decremented counter
is below 1; on any other exception ___handle_exception fires at once. The
argument k indexes the attempt outcomes for this comment. -/
def replyLoop (a : Nat → ReplyResult) (sid out : String) :
    Nat → Nat → List Event × LoopExit
  | _, 0 => ([], .fellThrough 0)
  | _, 1 => ([], .fellThrough 1)
  | k, n + 2 =>
    match a k with
    | .success rid => ([Event.publishAttempt sid out], .broke rid)
    | .apiError =>
      if n + 1 < 1 then
        ([Event.publishAttempt sid out, Event.sleep] ++ handleExceptionEvents,
          .handled true (n + 1))
      else
        let r := replyLoop a sid out (k + 1) (n + 1)
        (Event.publishAttempt sid out :: Event.sleep :: r.1, r.2)
    | .otherError =>
      ([Event.publishAttempt sid out] ++ handleExceptionEvents,
        .handled false (n + 2))

/-- A comment pulled from the stream: an opaque id and the raw body. -/
structure Comment where
  id : String
  body : String
deriving DecidableEq

/-- How __reply_to finished: returned normally with the updated store;
restarted because ___handle_exception ran inside the retry loop (the store
was closed there); or raised the unbound-local error reached when the loop
exits without a successful reply having been bound. -/
inductive ReplyOutcome where
  | returned (s : Store)
  | restarted (s : Store)
  | unboundError (s : Store)
deriving DecidableEq

/-- Embedding of __reply_to (src/inkbot.py lines 221-246): run the retry
loop, and afterwards assign the dedupe entry of comment id to reply id and
sync the store. When the loop broke, reply is bound and the write and sync
happen; when ___handle_exception already ran, control never comes back;
when the loop fell through, evaluating reply.id raises the unbound-local
error before the store is touched. -/
def reply_to (a : Nat → ReplyResult) (c : Comment) (output : String)
    (s : Store) : List Event × ReplyOutcome :=
  match replyLoop a c.id output 0 20 with
  | (evs, .broke rid) =>
    (evs ++ [Event.dedupeWrite c.id rid, Event.syncStore],
      .returned ((s.setItem c.id rid).sync))
  | (evs, .handled _ _) => (evs, .restarted (s.close))
  | (evs, .fellThrough _) => (evs, .unboundError s)

/-- Ambient session data for one consumer run: the loaded ink list and the
oracle giving the outcome of the k-th publish attempt for a comment id. -/
structure Env where
  inklist : List Ink
  attempts : String → Nat → ReplyResult

/-- How __comment_action finished: done (fell off the end or returned
early), restarted (___handle_exception ran below it), or raised (an
exception escaped it and propagates to the stream loop). -/
inductive ActionOutcome where
  | done (s : Store)
  | restarted (s : Store)
  | raised (s : Store)
deriving DecidableEq

/-- Embedding of __comment_action (src/inkbot.py lines 249-271): look the
comment id up in the dedupe store first and return if present; strip
backslashes from the body; extract the bracket tokens and return if none;
run find_best_match on every token (recorded as matchToken events); format
the reply; and when the formatted body is non-empty, call __reply_to. -/
def comment_action (env : Env) (s : Store) (c : Comment) :
    List Event × ActionOutcome :=
  if s.contains c.id then ([], .done s)
  else
    let match_list := findallTokens (stripBackslashes c.body)
    if match_list.isEmpty then ([], .done s)
    else
      let matchEvents := match_list.map Event.matchToken
      let ink_matches := match_list.map (fun token => find_best_match env.inklist token)
      match format_comment ink_matches with
      | .error _ => (matchEvents, .raised s)
      | .ok comment_body =>
        if comment_body = "" then (matchEvents, .done s)
        else
          let r := reply_to (env.attempts c.id) c comment_body s
          match r.2 with
          | .returned s1 => (matchEvents ++ r.1, .done s1)
          | .restarted s1 => (matchEvents ++ r.1, .restarted s1)
          | .unboundError s1 => (matchEvents ++ r.1, .raised s1)

/-- One item observed by the stream loop: a comment to process, an
exception raised by the stream machinery, or a keyboard or system-exit
interrupt. -/
inductive StreamItem where
  | comment (c : Comment)
  | streamError
  | interrupt

/-- How one run of __inkbot_loop finished: the modelled finite stream was
exhausted, a restart was requested (___handle_exception ran), or an
interrupt was re-raised after cleanup. -/
inductive SessionOutcome where
  | ended (s : Store)
  | restartRequested (s : Store)
  | interrupted (s : Store)

/-- Embedding of __inkbot_loop (src/inkbot.py lines 275-286) over a finite
stream prefix: comments are processed in order; an exception raised by
comment_action is caught by the except-Exception clause, which runs
___handle_exception (close, sleep, restart); a KeyboardInterrupt or
SystemExit closes the store and re-raises without restarting. -/
def inkbot_loop (env : Env) : Store → List StreamItem → List Event × SessionOutcome
  | s, [] => ([], .ended s)
  | s, .comment c :: rest =>
    match comment_action env s c with
    | (evs, .done s1) =>
      let r := inkbot_loop env s1 rest
      (evs ++ r.1, r.2)
    | (evs, .restarted s1) => (evs, .restartRequested s1)
    | (evs, .raised s1) =>
      (evs ++ handleExceptionEvents, .restartRequested (s1.close))
  | s, .streamError :: _ => (handleExceptionEvents, .restartRequested (s.close))
  | s, .interrupt :: _ => ([Event.closeStore], .interrupted (s.close))

/-- Observable initialisation steps of InkBot.start (src/inkbot.py lines
166-191): log in to reddit, download and compile the ink rules, reopen the
dedupe store, then enter the stream loop. -/
def startInitEvents : List Event := [Event.login, Event.loadRules, Event.openStore]

/-- The supervisor cycle, modelled to one restart depth: run start (its
initialisation steps then the stream loop); when ___handle_exception
requested a restart, start runs again on the durable store contents and
consumption resumes on the next stream; an interrupt propagates out with
no further action (inkbot_run.py has no handler, the process exits). -/
def supervise (env : Env) (disk : List (String × String))
    (items nextItems : List StreamItem) : List Event × SessionOutcome :=
  let s := Store.reopen disk
  let r := inkbot_loop env s items
  match r.2 with
  | .restartRequested s1 =>
    let r2 := inkbot_loop env (Store.reopen s1.disk) nextItems
    (startInitEvents ++ r.1 ++ startInitEvents ++ r2.1, r2.2)
  | .interrupted s1 => (startInitEvents ++ r.1, .interrupted s1)
  | .ended s1 => (startInitEvents ++ r.1, .ended s1)

/-- Recogniser for publish-attempt events. -/
def isPublishEvent : Event → Bool
  | .publishAttempt _ _ => true
  | _ => false

/-- Number of publish calls recorded in a trace. -/
def publishCount (evs : List Event) : Nat := evs.countP isPublishEvent

/-- Trace of j consecutive transient publish failures: each failed attempt
is followed by the fixed-interval sleep. -/
def transientEvents (sid out : String) : Nat → List Event
  | 0 => []
  | j + 1 => Event.publishAttempt sid out :: Event.sleep :: transientEvents sid out j

/-- A freshly opened, empty dedupe store. -/
def emptyStore : Store := { data := [], disk := [], isOpen := true }

/-- A dedupe store already holding an entry for comment id x. -/
def storeWithX : Store := { data := [("x", "r")], disk := [("x", "r")], isOpen := true }

/-- A session with no loaded rules whose publish attempts always raise the
transient API error. -/
def env0 : Env := { inklist := [], attempts := fun _ _ => ReplyResult.apiError }

/-- Publish oracle: every attempt fails with the transient API error. -/
def allApiFail : Nat → ReplyResult := fun _ => ReplyResult.apiError

/-- Publish oracle: the first attempt succeeds with reply id r9. -/
def firstSucceeds : Nat → ReplyResult := fun _ => ReplyResult.success "r9"

/-- Publish oracle: the first attempt fails with a non-API error. -/
def otherFirst : Nat → ReplyResult := fun _ => ReplyResult.otherError

/-- A sample comment carrying one bracket token. -/
def cexComment : Comment := { id := "c0", body := "[[example]]" }

/-- A sample comment with no bracket token in its body. -/
def plainComment : Comment := { id := "p0", body := "no tokens here" }

/-- A sample comment whose body has an escaped bracket token. -/
def escapedComment : Comment := { id := "e0", body := "i like \\[[abcdef]] ink" }

/-- A loaded ink row whose pattern matches a 7-character substring of one
sample token but whose name field is absent. -/
def missingNameInk : Ink :=
  { compiled_re := some (fun t => if t == "[[abcdefg]]" then some "abcdefg" else none),
    fields :=
      { inkName := none,
        imgurAddress := some "http://example.com/a.png",
        scannedPage := none } }

/-- A raw rule record whose fields section has no RegEx key. -/
def noRegexRaw : RawRule :=
  { regexField := none,
    fields :=
      { inkName := some "Some Ink",
        imgurAddress := some "http://example.com/b.png",
        scannedPage := none } }

/-! Lemmas about the selection loop of find_best_match. -/

theorem maxFrom_eq_max (cands : List (String × Ink)) :
    ∀ L, maxFrom L cands = max L (maxMatchLen cands) := by
  induction cands with
  | nil => intro L; simp [maxFrom, maxMatchLen]
  | cons p rest ih =>
    intro L
    simp only [maxFrom, maxMatchLen, List.foldr_cons]
    rw [ih (max L p.1.length)]
    rw [max_assoc]
    rfl

theorem selectLoop_eq (cands : List (String × Ink)) :
    ∀ (best : Option Ink) (L : Nat),
      selectLoop cands best L =
        (if L < maxFrom L cands then
           (cands.find? (fun p => p.1.length == maxFrom L cands)).map (fun p => p.2)
         else best,
         maxFrom L cands) := by
  induction cands with
  | nil =>
    intro best L
    simp [selectLoop, maxFrom]
  | cons p rest ih =>
    intro best L
    obtain ⟨m, ink⟩ := p
    by_cases hl : m.length > L
    · have hmax : max L m.length = m.length := Nat.max_eq_right (Nat.le_of_lt hl)
      have hML : m.length ≤ maxFrom m.length rest := by
        rw [maxFrom_eq_max]; exact Nat.le_max_left _ _
      simp only [selectLoop, if_pos hl, maxFrom, hmax]
      rw [ih (some ink) m.length]
      have hcond : L < maxFrom m.length rest := lt_of_lt_of_le hl hML
      rw [if_pos hcond]
      by_cases he : m.length = maxFrom m.length rest
      · have hnot : ¬ m.length < maxFrom m.length rest := by omega
        rw [if_neg hnot]
        have hfind : List.find? (fun q => q.1.length == maxFrom m.length rest)
            ((m, ink) :: rest) = some (m, ink) :=
          List.find?_cons_of_pos _ (by simpa using he)
        rw [hfind]
        rfl
      · have hlt : m.length < maxFrom m.length rest := by omega
        rw [if_pos hlt]
        have hfind : List.find? (fun q => q.1.length == maxFrom m.length rest)
            ((m, ink) :: rest) =
            List.find? (fun q => q.1.length == maxFrom m.length rest) rest :=
          List.find?_cons_of_neg _ (by simpa using he)
        rw [hfind]
    · have hle : m.length ≤ L := Nat.le_of_not_lt hl
      have hmax : max L m.length = L := Nat.max_eq_left hle
      simp only [selectLoop, if_neg hl, maxFrom, hmax]
      rw [ih best L]
      by_cases hc : L < maxFrom L rest
      · rw [if_pos hc, if_pos hc]
        have hne : ¬ m.length = maxFrom L rest := by omega
        have hfind : List.find? (fun q => q.1.length == maxFrom L rest)
            ((m, ink) :: rest) =
            List.find? (fun q => q.1.length == maxFrom L rest) rest :=
          List.find?_cons_of_neg _ (by simpa using hne)
        rw [hfind]
      · rw [if_neg hc, if_neg hc]

theorem selectLoop_some_mem (cands : List (String × Ink)) :
    ∀ (best : Option Ink) (L : Nat) (ink : Ink),
      (selectLoop cands best L).1 = some ink →
      (∃ m, (m, ink) ∈ cands) ∨ best = some ink := by
  induction cands with
  | nil =>
    intro best L ink h
    right
    simpa [selectLoop] using h
  | cons p rest ih =>
    intro best L ink h
    obtain ⟨m, i⟩ := p
    by_cases hl : m.length > L
    · rw [show selectLoop ((m, i) :: rest) best L = selectLoop rest (some i) m.length by
        simp [selectLoop, if_pos hl]] at h
      rcases ih _ _ _ h with ⟨m2, hm⟩ | hb
      · exact Or.inl ⟨m2, List.mem_cons_of_mem _ hm⟩
      · have : i = ink := Option.some.inj hb
        exact Or.inl ⟨m, this ▸ List.mem_cons_self _ _⟩
    · rw [show selectLoop ((m, i) :: rest) best L = selectLoop rest best L by
        simp [selectLoop, if_neg hl]] at h
      rcases ih _ _ _ h with ⟨m2, hm⟩ | hb
      · exact Or.inl ⟨m2, List.mem_cons_of_mem _ hm⟩
      · exact Or.inr hb

theorem candidateMatches_compiled (inklist : List Ink) (token : String) :
    ∀ m ink, (m, ink) ∈ candidateMatches inklist token → ink.compiled_re ≠ none := by
  intro m ink h
  unfold candidateMatches at h
  rw [List.mem_filterMap] at h
  obtain ⟨i0, _, hmap⟩ := h
  revert hmap
  cases hre : i0.compiled_re with
  | none => intro hmap; simp at hmap
  | some re =>
    intro hmap
    simp only at hmap
    cases hrt : re token with
    | none => rw [hrt] at hmap; simp at hmap
    | some mm =>
      rw [hrt] at hmap
      simp only [Option.map_some', Option.some.injEq, Prod.mk.injEq] at hmap
      rw [← hmap.2, hre]
      simp

/-- C2: for every rule list and every token, find_best_match returns the
rule whose matched-substring length within the token is strictly greatest
among all matching rules, and only when that length is strictly greater
than 5; on a tie at the maximal length the first rule in rule order is
returned; when no rule matches, or none exceeds the threshold (length
exactly 5 or less never qualifies), it returns none. Stated as: the source
function coincides with bestMatchSpec, the definition written from the
spec's words. -/
theorem c2_best_match_refines_spec (inklist : List Ink) (token : String) :
    find_best_match inklist token = bestMatchSpec inklist token := by
  unfold find_best_match bestMatchSpec
  rw [selectLoop_eq]
  rw [maxFrom_eq_max]
  by_cases h : maxMatchLen (candidateMatches inklist token) > 5
  · have h5 : max 5 (maxMatchLen (candidateMatches inklist token)) =
        maxMatchLen (candidateMatches inklist token) :=
      Nat.max_eq_right (Nat.le_of_lt h)
    rw [h5]
  · have h5 : max 5 (maxMatchLen (candidateMatches inklist token)) = 5 :=
      Nat.max_eq_left (by omega)
    rw [h5]
    simp only [if_neg h]
    simp

/-- C8 counterexample: the claim says a rule record missing its name,
pattern or target field is never matched by the Match Engine; yet a loaded
rule whose name field is absent is returned by find_best_match for a token
its pattern matches with length 7. -/
theorem c8_counterexample_missing_fields :
    find_best_match [missingNameInk] "[[abcdefg]]" = some missingNameInk ∧
    missingNameInk.fields.inkName = none := by
  constructor
  · rfl
  · rfl

/-- C8 amended: a loaded rule whose compiled pattern is not populated is
never returned by find_best_match; a rule missing its name or target is
matched but contributes nothing at the formatting stage, silently; and a
raw record whose fields have no RegEx key makes the rule-compilation step
of start fail instead of being dropped. -/
theorem c8_missing_fields_amended :
    (∀ inklist token ink, find_best_match inklist token = some ink →
      ink.compiled_re ≠ none) ∧
    (∀ acc ink rest u, inkUrlOf ink = .ok u →
      (pyTruthy ink.fields.inkName && pyTruthy u) = false →
      formatLoop acc (some ink :: rest) = formatLoop acc rest) ∧
    (∀ compile rules, (∃ r, r ∈ rules ∧ r.regexField = none) →
      compileRules compile rules = .error ()) := by
  refine ⟨?_, ?_, ?_⟩
  · intro inklist token ink h
    unfold find_best_match at h
    rcases selectLoop_some_mem _ _ _ _ h with ⟨m, hm⟩ | hb
    · exact candidateMatches_compiled inklist token m ink hm
    · exact absurd hb (by simp)
  · intro acc ink rest u hu hfalse
    have hstep : formatLoop acc (some ink :: rest) =
        match inkUrlOf ink with
        | .error e => .error e
        | .ok ink_url =>
          if pyTruthy ink.fields.inkName && pyTruthy ink_url then
            formatLoop
              (acc ++ "* [" ++ ink.fields.inkName.getD "" ++ "](" ++
                ink_url.getD "" ++ ")\n") rest
          else formatLoop acc rest := rfl
    rw [hstep, hu]
    simp [hfalse]
  · intro compile rules
    induction rules with
    | nil => rintro ⟨r, hr, -⟩; simp at hr
    | cons r0 rest ih =>
      rintro ⟨r, hr, hnone⟩
      rcases List.mem_cons.mp hr with rfl | hr2
      · unfold compileRules
        rw [hnone]
      · cases h0 : r0.regexField with
        | none => unfold compileRules; rw [h0]
        | some pat =>
          unfold compileRules
          rw [h0, ih ⟨r, hr2, hnone⟩]
          rfl

/-- C8 amended, instantiated: the missing-name ink is returned by the
match engine yet formats to nothing, and a record without a RegEx key
fails compilation. -/
theorem c8_missing_fields_amended_witness :
    missingNameInk.compiled_re ≠ none ∧
    formatLoop "" [some missingNameInk] = formatLoop "" [] ∧
    compileRules (fun _ _ => none) [noRegexRaw] = .error () := by
  refine ⟨?_, ?_, ?_⟩
  · exact c8_missing_fields_amended.1 [missingNameInk] "[[abcdefg]]" missingNameInk rfl
  · exact c8_missing_fields_amended.2.1 "" missingNameInk []
      (some "http://example.com/a.png") rfl rfl
  · exact c8_missing_fields_amended.2.2 (fun _ _ => none) [noRegexRaw]
      ⟨noRegexRaw, by simp, rfl⟩

/-! Lemmas about the retry loop of __reply_to. -/

theorem replyLoop_step (a : Nat → ReplyResult) (sid out : String) (k retries : Nat)
    (h2 : 2 ≤ retries) :
    replyLoop a sid out k retries =
      match a k with
      | .success rid => ([Event.publishAttempt sid out], .broke rid)
      | .apiError =>
        (Event.publishAttempt sid out :: Event.sleep ::
           (replyLoop a sid out (k + 1) (retries - 1)).1,
         (replyLoop a sid out (k + 1) (retries - 1)).2)
      | .otherError =>
        ([Event.publishAttempt sid out, Event.closeStore, Event.sleep],
          .handled false retries) := by
  obtain ⟨n, rfl⟩ : ∃ n, retries = n + 2 := ⟨retries - 2, by omega⟩
  have hsub : n + 2 - 1 = n + 1 := by omega
  rw [hsub]
  cases ha : a k with
  | success rid => simp [replyLoop, ha]
  | apiError =>
    simp only [replyLoop, ha]
    rw [if_neg (by omega)]
  | otherError => simp [replyLoop, ha, handleExceptionEvents]

theorem replyLoop_fellThrough_all_api (a : Nat → ReplyResult) (sid out : String) :
    ∀ retries k, 1 ≤ retries → (∀ i, i < retries - 1 → a (k + i) = .apiError) →
      replyLoop a sid out k retries =
        (transientEvents sid out (retries - 1), .fellThrough 1) := by
  intro retries
  induction retries using Nat.strong_induction_on with
  | _ retries ih =>
    intro k h1 hall
    by_cases h2 : 2 ≤ retries
    · have h0 : a k = .apiError := by
        have := hall 0 (by omega)
        simpa using this
      rw [replyLoop_step a sid out k retries h2]
      simp only [h0]
      have hrec := ih (retries - 1) (by omega) (k + 1) (by omega)
        (fun i hi => by
          have hx := hall (i + 1) (by omega)
          have heq : k + (i + 1) = k + 1 + i := by omega
          rwa [heq] at hx)
      rw [hrec]
      obtain ⟨j, hj⟩ : ∃ j, retries - 1 = j + 1 := ⟨retries - 2, by omega⟩
      rw [hj]
      simp [transientEvents]
    · have hr1 : retries = 1 := by omega
      subst hr1
      simp [replyLoop, transientEvents]

theorem replyLoop_broke_eq (a : Nat → ReplyResult) (sid out rid : String) :
    ∀ j retries k, j + 1 < retries → (∀ i, i < j → a (k + i) = .apiError) →
      a (k + j) = .success rid →
      replyLoop a sid out k retries =
        (transientEvents sid out j ++ [Event.publishAttempt sid out], .broke rid) := by
  intro j
  induction j with
  | zero =>
    intro retries k hj _ hs
    rw [replyLoop_step a sid out k retries (by omega)]
    rw [Nat.add_zero] at hs
    simp [hs, transientEvents]
  | succ i ih =>
    intro retries k hj hfail hs
    have h0 : a k = .apiError := by
      have := hfail 0 (by omega)
      simpa using this
    rw [replyLoop_step a sid out k retries (by omega)]
    simp only [h0]
    have hrec := ih (retries - 1) (k + 1) (by omega)
      (fun i2 hi2 => by
        have hx := hfail (i2 + 1) (by omega)
        have heq : k + (i2 + 1) = k + 1 + i2 := by omega
        rwa [heq] at hx)
      (by
        have heq : k + (i + 1) = k + 1 + i := by omega
        rwa [heq] at hs)
    rw [hrec]
    simp [transientEvents]

theorem replyLoop_handled_eq (a : Nat → ReplyResult) (sid out : String) :
    ∀ j retries k, j + 1 < retries → (∀ i, i < j → a (k + i) = .apiError) →
      a (k + j) = .otherError →
      replyLoop a sid out k retries =
        (transientEvents sid out j ++
           [Event.publishAttempt sid out, Event.closeStore, Event.sleep],
         .handled false (retries - j)) := by
  intro j
  induction j with
  | zero =>
    intro retries k hj _ hs
    rw [replyLoop_step a sid out k retries (by omega)]
    rw [Nat.add_zero] at hs
    simp [hs, transientEvents]
  | succ i ih =>
    intro retries k hj hfail hs
    have h0 : a k = .apiError := by
      have := hfail 0 (by omega)
      simpa using this
    rw [replyLoop_step a sid out k retries (by omega)]
    simp only [h0]
    have hrec := ih (retries - 1) (k + 1) (by omega)
      (fun i2 hi2 => by
        have hx := hfail (i2 + 1) (by omega)
        have heq : k + (i2 + 1) = k + 1 + i2 := by omega
        rwa [heq] at hx)
      (by
        have heq : k + (i + 1) = k + 1 + i := by omega
        rwa [heq] at hs)
    rw [hrec]
    have hn : retries - 1 - i = retries - (i + 1) := by omega
    rw [hn]
    simp [transientEvents]

theorem replyLoop_broke_inv (a : Nat → ReplyResult) (sid out rid : String) :
    ∀ retries k, (replyLoop a sid out k retries).2 = .broke rid →
      ∃ j, j + 1 < retries ∧ (∀ i, i < j → a (k + i) = .apiError) ∧
        a (k + j) = .success rid := by
  intro retries
  induction retries using Nat.strong_induction_on with
  | _ retries ih =>
    intro k h
    by_cases h2 : 2 ≤ retries
    · rw [replyLoop_step a sid out k retries h2] at h
      cases ha : a k with
      | success r2 =>
        simp only [ha] at h
        have hr : r2 = rid := by simpa using h
        exact ⟨0, by omega, fun i hi => absurd hi (Nat.not_lt_zero i),
          by rw [Nat.add_zero, ha, hr]⟩
      | apiError =>
        simp only [ha] at h
        obtain ⟨j, hj, hfail, hs⟩ := ih (retries - 1) (by omega) (k + 1) h
        refine ⟨j + 1, by omega, ?_, ?_⟩
        · intro i hi
          cases i with
          | zero => simpa using ha
          | succ i2 =>
            have hx := hfail i2 (by omega)
            have heq : k + 1 + i2 = k + (i2 + 1) := by omega
            rwa [heq] at hx
        · have heq : k + 1 + j = k + (j + 1) := by omega
          rwa [heq] at hs
      | otherError => simp only [ha] at h; cases h
    · have : retries = 0 ∨ retries = 1 := by omega
      rcases this with hr | hr <;> subst hr <;> simp [replyLoop] at h

theorem replyLoop_never_out_of_retries (a : Nat → ReplyResult) (sid out : String) :
    ∀ retries k m, (replyLoop a sid out k retries).2 ≠ .handled true m := by
  intro retries
  induction retries using Nat.strong_induction_on with
  | _ retries ih =>
    intro k m h
    by_cases h2 : 2 ≤ retries
    · rw [replyLoop_step a sid out k retries h2] at h
      cases ha : a k with
      | success r2 => simp only [ha] at h; cases h
      | apiError =>
        simp only [ha] at h
        exact ih (retries - 1) (by omega) (k + 1) m h
      | otherError => simp only [ha] at h; cases h
    · have : retries = 0 ∨ retries = 1 := by omega
      rcases this with hr | hr <;> subst hr <;> simp [replyLoop] at h

theorem replyLoop_events_shape (a : Nat → ReplyResult) (sid out : String) :
    ∀ retries k e, e ∈ (replyLoop a sid out k retries).1 →
      e = Event.publishAttempt sid out ∨ e = Event.sleep ∨ e = Event.closeStore := by
  intro retries
  induction retries using Nat.strong_induction_on with
  | _ retries ih =>
    intro k e he
    by_cases h2 : 2 ≤ retries
    · rw [replyLoop_step a sid out k retries h2] at he
      cases ha : a k with
      | success r2 =>
        simp only [ha] at he
        simp only [List.mem_singleton] at he
        exact Or.inl he
      | apiError =>
        simp only [ha, List.mem_cons] at he
        rcases he with he | he | he
        · exact Or.inl he
        · exact Or.inr (Or.inl he)
        · exact ih (retries - 1) (by omega) (k + 1) e he
      | otherError =>
        simp only [ha, List.mem_cons] at he
        rcases he with he | he | he | he
        · exact Or.inl he
        · exact Or.inr (Or.inr he)
        · exact Or.inr (Or.inl he)
        · simp at he
    · have : retries = 0 ∨ retries = 1 := by omega
      rcases this with hr | hr <;> subst hr <;> simp [replyLoop] at he

theorem replyLoop_handled_trace_ends (a : Nat → ReplyResult) (sid out : String) :
    ∀ retries k b m, (replyLoop a sid out k retries).2 = .handled b m →
      ∃ evs0, (replyLoop a sid out k retries).1 =
        evs0 ++ [Event.closeStore, Event.sleep] := by
  intro retries
  induction retries using Nat.strong_induction_on with
  | _ retries ih =>
    intro k b m h
    by_cases h2 : 2 ≤ retries
    · rw [replyLoop_step a sid out k retries h2] at h ⊢
      cases ha : a k with
      | success r2 => simp only [ha] at h; cases h
      | apiError =>
        simp only [ha] at h ⊢
        obtain ⟨evs0, hev⟩ := ih (retries - 1) (by omega) (k + 1) b m h
        exact ⟨Event.publishAttempt sid out :: Event.sleep :: evs0, by
          rw [hev]; simp⟩
      | otherError =>
        simp only [ha]
        exact ⟨[Event.publishAttempt sid out], rfl⟩
    · have : retries = 0 ∨ retries = 1 := by omega
      rcases this with hr | hr <;> subst hr <;> simp [replyLoop] at h

/-! Lemmas about publish counting and the transient-failure trace. -/

theorem publishCount_nil : publishCount [] = 0 := rfl

theorem publishCount_cons (e : Event) (l : List Event) :
    publishCount (e :: l) = publishCount l + if isPublishEvent e then 1 else 0 :=
  List.countP_cons _ _ _

theorem publishCount_append (l1 l2 : List Event) :
    publishCount (l1 ++ l2) = publishCount l1 + publishCount l2 :=
  List.countP_append _ _ _

theorem publishCount_transient (sid out : String) :
    ∀ j, publishCount (transientEvents sid out j) = j := by
  intro j
  induction j with
  | zero => rfl
  | succ i ih =>
    simp only [transientEvents, publishCount_cons, ih, isPublishEvent]
    simp

theorem transientEvents_mem (sid out : String) :
    ∀ j e, e ∈ transientEvents sid out j →
      e = Event.publishAttempt sid out ∨ e = Event.sleep := by
  intro j
  induction j with
  | zero => intro e he; simp [transientEvents] at he
  | succ i ih =>
    intro e he
    simp only [transientEvents, List.mem_cons] at he
    rcases he with he | he | he
    · exact Or.inl he
    · exact Or.inr he
    · exact ih e he

theorem replyLoop_publishCount_le (a : Nat → ReplyResult) (sid out : String) :
    ∀ retries k, publishCount (replyLoop a sid out k retries).1 ≤ retries - 1 := by
  intro retries
  induction retries using Nat.strong_induction_on with
  | _ retries ih =>
    intro k
    by_cases h2 : 2 ≤ retries
    · rw [replyLoop_step a sid out k retries h2]
      cases ha : a k with
      | success r2 =>
        simp only [publishCount_cons, publishCount_nil, isPublishEvent]
        simp
        omega
      | apiError =>
        simp only [publishCount_cons, isPublishEvent]
        have := ih (retries - 1) (by omega) (k + 1)
        simp
        omega
      | otherError =>
        simp only [publishCount_cons, publishCount_nil, isPublishEvent]
        simp
        omega
    · have : retries = 0 ∨ retries = 1 := by omega
      rcases this with hr | hr <;> subst hr <;> simp [replyLoop, publishCount_nil]

/-! Lemmas characterising __reply_to at its three exits. -/

theorem reply_to_broke (a : Nat → ReplyResult) (c : Comment) (output : String)
    (s : Store) (k : Nat) (rid : String) (hk : k < 19)
    (hfail : ∀ j, j < k → a j = ReplyResult.apiError)
    (hs : a k = ReplyResult.success rid) :
    reply_to a c output s =
      (transientEvents c.id output k ++
         [Event.publishAttempt c.id output, Event.dedupeWrite c.id rid,
          Event.syncStore],
       ReplyOutcome.returned ((s.setItem c.id rid).sync)) := by
  have hL := replyLoop_broke_eq a c.id output rid k 20 0 (by omega)
    (fun i hi => by simpa using hfail i hi) (by simpa using hs)
  unfold reply_to
  rw [hL]
  simp

theorem reply_to_all_api (a : Nat → ReplyResult) (c : Comment) (output : String)
    (s : Store) (h : ∀ i, i < 19 → a i = ReplyResult.apiError) :
    reply_to a c output s =
      (transientEvents c.id output 19, ReplyOutcome.unboundError s) := by
  have hL := replyLoop_fellThrough_all_api a c.id output 20 0 (by omega)
    (fun i hi => by
      have hi19 : i < 19 := by omega
      simpa using h i hi19)
  unfold reply_to
  rw [hL]

theorem reply_to_other (a : Nat → ReplyResult) (c : Comment) (output : String)
    (s : Store) (k : Nat) (hk : k < 19)
    (hfail : ∀ j, j < k → a j = ReplyResult.apiError)
    (hother : a k = ReplyResult.otherError) :
    reply_to a c output s =
      (transientEvents c.id output k ++
         [Event.publishAttempt c.id output, Event.closeStore, Event.sleep],
       ReplyOutcome.restarted (s.close)) := by
  have hL := replyLoop_handled_eq a c.id output k 20 0 (by omega)
    (fun i hi => by simpa using hfail i hi) (by simpa using hother)
  unfold reply_to
  rw [hL]

theorem reply_to_returned_inv (a : Nat → ReplyResult) (c : Comment)
    (output : String) (s s1 : Store)
    (h : (reply_to a c output s).2 = ReplyOutcome.returned s1) :
    ∃ rid, (replyLoop a c.id output 0 20).2 = LoopExit.broke rid ∧
      s1 = (s.setItem c.id rid).sync := by
  obtain ⟨evs, ex, hL⟩ : ∃ evs ex, replyLoop a c.id output 0 20 = (evs, ex) :=
    ⟨_, _, rfl⟩
  unfold reply_to at h
  rw [hL] at h
  cases ex with
  | broke rid =>
    refine ⟨rid, by rw [hL], ?_⟩
    have hthis := h
    simp only at hthis
    exact (ReplyOutcome.returned.inj hthis).symm
  | handled b m => simp at h
  | fellThrough m => simp at h

theorem reply_to_restarted_inv (a : Nat → ReplyResult) (c : Comment)
    (output : String) (s s1 : Store)
    (h : (reply_to a c output s).2 = ReplyOutcome.restarted s1) :
    s1 = s.close ∧
    (∃ evs0, (reply_to a c output s).1 =
      evs0 ++ [Event.closeStore, Event.sleep]) := by
  obtain ⟨evs, ex, hL⟩ : ∃ evs ex, replyLoop a c.id output 0 20 = (evs, ex) :=
    ⟨_, _, rfl⟩
  unfold reply_to at h ⊢
  rw [hL] at h ⊢
  cases ex with
  | broke rid => simp at h
  | handled b m =>
    constructor
    · have hthis := h
      simp only at hthis
      exact (ReplyOutcome.restarted.inj hthis).symm
    · obtain ⟨evs0, hev⟩ :=
        replyLoop_handled_trace_ends a c.id output 20 0 b m (by rw [hL])
      rw [hL] at hev
      exact ⟨evs0, by simpa using hev⟩
  | fellThrough m => simp at h

theorem reply_to_unbound_inv (a : Nat → ReplyResult) (c : Comment)
    (output : String) (s s1 : Store)
    (h : (reply_to a c output s).2 = ReplyOutcome.unboundError s1) : s1 = s := by
  obtain ⟨evs, ex, hL⟩ : ∃ evs ex, replyLoop a c.id output 0 20 = (evs, ex) :=
    ⟨_, _, rfl⟩
  unfold reply_to at h
  rw [hL] at h
  cases ex with
  | broke rid => simp at h
  | handled b m => simp at h
  | fellThrough m =>
    have hthis := h
    simp only at hthis
    exact (ReplyOutcome.unboundError.inj hthis).symm

theorem reply_to_not_returned_no_dedupe (a : Nat → ReplyResult) (c : Comment)
    (output : String) (s : Store)
    (h : ∀ s1, (reply_to a c output s).2 ≠ ReplyOutcome.returned s1) :
    ∀ sid2 rid, Event.dedupeWrite sid2 rid ∉ (reply_to a c output s).1 := by
  intro sid2 rid hmem
  obtain ⟨evs, ex, hL⟩ : ∃ evs ex, replyLoop a c.id output 0 20 = (evs, ex) :=
    ⟨_, _, rfl⟩
  unfold reply_to at h hmem
  rw [hL] at h hmem
  cases ex with
  | broke rid2 => exact h ((s.setItem c.id rid2).sync) (by simp)
  | handled b m =>
    have hsh := replyLoop_events_shape a c.id output 20 0
      (Event.dedupeWrite sid2 rid) (by rw [hL]; simpa using hmem)
    rcases hsh with h1 | h1 | h1 <;> simp at h1
  | fellThrough m =>
    have hsh := replyLoop_events_shape a c.id output 20 0
      (Event.dedupeWrite sid2 rid) (by rw [hL]; simpa using hmem)
    rcases hsh with h1 | h1 | h1 <;> simp at h1

/-- C9: when every publish attempt for a comment fails with the transient
API error, the retry loop exits normally with the counter equal to 1 after
19 attempts; the branch guarded by the counter being below 1 (the explicit
out-of-retries restart) is never executed, for any oracle whatsoever; and
control falls through to the dedupe-write line where the reply variable is
unbound, so the error is raised with the store untouched and before any
dedupe-store write event. -/
theorem c9_retry_exhaustion_unbound (a : Nat → ReplyResult) (c : Comment)
    (output : String) (s : Store)
    (h : ∀ k, a k = ReplyResult.apiError) :
    (replyLoop a c.id output 0 20).2 = LoopExit.fellThrough 1 ∧
    publishCount (replyLoop a c.id output 0 20).1 = 19 ∧
    (∀ (a2 : Nat → ReplyResult) (sid out : String) (retries k m : Nat),
      (replyLoop a2 sid out k retries).2 ≠ LoopExit.handled true m) ∧
    reply_to a c output s =
      (transientEvents c.id output 19, ReplyOutcome.unboundError s) ∧
    (∀ sid2 rid, Event.dedupeWrite sid2 rid ∉ (reply_to a c output s).1) := by
  have hL := replyLoop_fellThrough_all_api a c.id output 20 0 (by omega)
    (fun i _ => h (0 + i))
  have hR := reply_to_all_api a c output s (fun i _ => h i)
  refine ⟨by rw [hL], ?_, ?_, hR, ?_⟩
  · rw [hL]
    simpa using publishCount_transient c.id output 19
  · intro a2 sid out retries k m
    exact replyLoop_never_out_of_retries a2 sid out retries k m
  · intro sid2 rid hmem
    rw [hR] at hmem
    simp only at hmem
    rcases transientEvents_mem c.id output 19 _ hmem with h1 | h1 <;> simp at h1

/-- C9 instantiated at the constant transient-failure oracle. -/
theorem c9_retry_exhaustion_unbound_witness :
    (replyLoop allApiFail cexComment.id "body" 0 20).2 = LoopExit.fellThrough 1 ∧
    publishCount (replyLoop allApiFail cexComment.id "body" 0 20).1 = 19 ∧
    reply_to allApiFail cexComment "body" emptyStore =
      (transientEvents cexComment.id "body" 19, ReplyOutcome.unboundError emptyStore) := by
  have h := c9_retry_exhaustion_unbound allApiFail cexComment "body" emptyStore
    (fun k => rfl)
  exact ⟨h.1, h.2.1, h.2.2.2.1⟩

/-- C3 counterexample: the claim fixes the retry budget at 20 attempts,
but with every attempt failing transiently the publisher makes exactly 19
publish attempts — the twentieth never happens — and the loop's own
out-of-retries escalation is not what fires: the attempt falls out as the
unbound-reply error. -/
theorem c3_counterexample_retry_budget :
    publishCount (reply_to allApiFail cexComment "body" emptyStore).1 = 19 ∧
    publishCount (reply_to allApiFail cexComment "body" emptyStore).1 ≠ 20 ∧
    (reply_to allApiFail cexComment "body" emptyStore).2 =
      ReplyOutcome.unboundError emptyStore := by
  have hR := reply_to_all_api allApiFail cexComment "body" emptyStore
    (fun i _ => rfl)
  rw [hR]
  refine ⟨?_, ?_, rfl⟩
  · simpa using publishCount_transient cexComment.id "body" 19
  · have h19 := publishCount_transient cexComment.id "body" 19
    simp only
    omega

/-- C3 amended: the publisher retries transient failures making at most 19
publish attempts in total (a counter starts at 20 but the loop guard
admits one attempt per counter value from 20 down to 2), sleeping the
fixed wait interval after each failed attempt; exhausting the attempts
reaches the supervisor's crash-recovery path indirectly — the unbound
reply variable raises an error that the stream loop's exception handler
turns into a restart — rather than the failure being returned to the
caller as a value. -/
theorem c3_retry_budget_amended (a : Nat → ReplyResult) (c : Comment)
    (output : String) (s : Store)
    (h : ∀ k, a k = ReplyResult.apiError) :
    reply_to a c output s =
      (transientEvents c.id output 19, ReplyOutcome.unboundError s) ∧
    publishCount (reply_to a c output s).1 = 19 ∧
    (∀ (a2 : Nat → ReplyResult) (c2 : Comment) (out2 : String) (s2 : Store),
      publishCount (reply_to a2 c2 out2 s2).1 ≤ 19) ∧
    (∀ (env : Env) (s0 : Store) (c0 : Comment) (s1 : Store) (rest : List StreamItem),
      (comment_action env s0 c0).2 = ActionOutcome.raised s1 →
      (inkbot_loop env s0 (StreamItem.comment c0 :: rest)).2 =
        SessionOutcome.restartRequested s1.close) := by
  have hR := reply_to_all_api a c output s (fun i _ => h i)
  refine ⟨hR, ?_, ?_, ?_⟩
  · rw [hR]
    simpa using publishCount_transient c.id output 19
  · intro a2 c2 out2 s2
    obtain ⟨evs, ex, hL⟩ : ∃ evs ex, replyLoop a2 c2.id out2 0 20 = (evs, ex) :=
      ⟨_, _, rfl⟩
    have hle := replyLoop_publishCount_le a2 c2.id out2 20 0
    rw [hL] at hle
    unfold reply_to
    rw [hL]
    cases ex with
    | broke rid =>
      simp only [publishCount_append, publishCount_cons, publishCount_nil,
        isPublishEvent]
      simp only at hle
      simp
      omega
    | handled b m => simpa using hle
    | fellThrough m => simpa using hle
  · intro env s0 c0 s1 rest hca
    obtain ⟨evs, o, hc⟩ : ∃ evs o, comment_action env s0 c0 = (evs, o) :=
      ⟨_, _, rfl⟩
    rw [hc] at hca
    unfold inkbot_loop
    rw [hc]
    cases o with
    | done s2 => simp at hca
    | restarted s2 => simp at hca
    | raised s2 =>
      have hs2 : s2 = s1 := by simpa using hca
      rw [hs2]

/-- C3 amended, instantiated at the constant transient-failure oracle. -/
theorem c3_retry_budget_amended_witness :
    reply_to allApiFail cexComment "body" emptyStore =
      (transientEvents cexComment.id "body" 19, ReplyOutcome.unboundError emptyStore) ∧
    publishCount (reply_to allApiFail cexComment "body" emptyStore).1 = 19 := by
  have h := c3_retry_budget_amended allApiFail cexComment "body" emptyStore
    (fun k => rfl)
  exact ⟨h.1, h.2.1⟩

/-- C4: when a publish attempt fails with a non-transient (non-API) error
after k earlier transient failures, no further attempt is made, the exit
carries the undecremented counter value (no retry budget consumed by the
failing attempt), ___handle_exception runs immediately (close the store,
sleep, restart), the store keeps its data, and no dedupe-write event
occurs for the comment. -/
theorem c4_non_transient_abort (a : Nat → ReplyResult) (c : Comment)
    (output : String) (s : Store) (k : Nat) (hk : k < 19)
    (hfail : ∀ j, j < k → a j = ReplyResult.apiError)
    (hother : a k = ReplyResult.otherError) :
    reply_to a c output s =
      (transientEvents c.id output k ++
         [Event.publishAttempt c.id output, Event.closeStore, Event.sleep],
       ReplyOutcome.restarted s.close) ∧
    publishCount (reply_to a c output s).1 = k + 1 ∧
    (replyLoop a c.id output 0 20).2 = LoopExit.handled false (20 - k) ∧
    s.close.data = s.data ∧
    (∀ sid2 rid, Event.dedupeWrite sid2 rid ∉ (reply_to a c output s).1) := by
  have hR := reply_to_other a c output s k hk hfail hother
  have hL := replyLoop_handled_eq a c.id output k 20 0 (by omega)
    (fun i hi => by simpa using hfail i hi) (by simpa using hother)
  refine ⟨hR, ?_, by rw [hL], rfl, ?_⟩
  · rw [hR]
    simp only [publishCount_append, publishCount_cons, publishCount_nil,
      isPublishEvent, publishCount_transient]
    simp
  · intro sid2 rid hmem
    rw [hR] at hmem
    simp only [List.mem_append, List.mem_cons] at hmem
    rcases hmem with hmem | hmem | hmem | hmem | hmem
    · rcases transientEvents_mem c.id output k _ hmem with h1 | h1 <;> simp at h1
    · simp at hmem
    · simp at hmem
    · simp at hmem
    · simp at hmem

/-- C4 instantiated: the very first attempt raises a non-API error. -/
theorem c4_non_transient_abort_witness :
    reply_to otherFirst cexComment "body" emptyStore =
      (transientEvents cexComment.id "body" 0 ++
         [Event.publishAttempt cexComment.id "body", Event.closeStore, Event.sleep],
       ReplyOutcome.restarted emptyStore.close) ∧
    publishCount (reply_to otherFirst cexComment "body" emptyStore).1 = 0 + 1 := by
  have h := c4_non_transient_abort otherFirst cexComment "body" emptyStore 0
    (by omega) (fun j hj => absurd hj (Nat.not_lt_zero j)) rfl
  exact ⟨h.1, h.2.1⟩

/-- A comment whose id is already recorded is skipped by __comment_action
with no events and an unchanged store. -/
theorem comment_action_contains (env : Env) (s : Store) (c : Comment)
    (h : s.contains c.id = true) :
    comment_action env s c = ([], ActionOutcome.done s) := by
  unfold comment_action
  rw [if_pos h]

/-- C1: a dedupe entry mapping the comment id to the reply id is written
iff a publish attempt for the comment succeeded; on success the write and
the synchronous flush happen after the successful publish event and before
__reply_to returns (the returned store's durable view equals its in-memory
view and contains the comment id), and a second run over the same comment
afterwards performs no work at all — zero further publish calls; on either
failure outcome the store gains no entry and no dedupe-write event occurs. -/
theorem c1_dedupe_roundtrip (a : Nat → ReplyResult) (c : Comment)
    (output : String) (s : Store) :
    ((∃ s1, (reply_to a c output s).2 = ReplyOutcome.returned s1) ↔
      (∃ k rid, k < 19 ∧ (∀ j, j < k → a j = ReplyResult.apiError) ∧
        a k = ReplyResult.success rid)) ∧
    (∀ k rid, k < 19 → (∀ j, j < k → a j = ReplyResult.apiError) →
      a k = ReplyResult.success rid →
      reply_to a c output s =
        (transientEvents c.id output k ++
           [Event.publishAttempt c.id output, Event.dedupeWrite c.id rid,
            Event.syncStore],
         ReplyOutcome.returned ((s.setItem c.id rid).sync)) ∧
      ((s.setItem c.id rid).sync).disk = ((s.setItem c.id rid).sync).data ∧
      ((s.setItem c.id rid).sync).contains c.id = true ∧
      (∀ env, comment_action env ((s.setItem c.id rid).sync) c =
        ([], ActionOutcome.done ((s.setItem c.id rid).sync)))) ∧
    (∀ s1, (reply_to a c output s).2 = ReplyOutcome.restarted s1 →
      s1.data = s.data ∧
      ∀ sid2 rid, Event.dedupeWrite sid2 rid ∉ (reply_to a c output s).1) ∧
    (∀ s1, (reply_to a c output s).2 = ReplyOutcome.unboundError s1 →
      s1 = s ∧
      ∀ sid2 rid, Event.dedupeWrite sid2 rid ∉ (reply_to a c output s).1) := by
  refine ⟨⟨?_, ?_⟩, ?_, ?_, ?_⟩
  · rintro ⟨s1, h⟩
    obtain ⟨rid, hbroke, -⟩ := reply_to_returned_inv a c output s s1 h
    obtain ⟨j, hj, hfail, hs⟩ := replyLoop_broke_inv a c.id output rid 20 0 hbroke
    exact ⟨j, rid, by omega, fun i hi => by simpa using hfail i hi,
      by simpa using hs⟩
  · rintro ⟨k, rid, hk, hfail, hs⟩
    exact ⟨(s.setItem c.id rid).sync,
      by rw [reply_to_broke a c output s k rid hk hfail hs]⟩
  · intro k rid hk hfail hs
    have hR := reply_to_broke a c output s k rid hk hfail hs
    have hcont : ((s.setItem c.id rid).sync).contains c.id = true := by
      simp [Store.contains, Store.setItem, Store.sync]
    refine ⟨hR, rfl, hcont, ?_⟩
    intro env
    exact comment_action_contains env _ c hcont
  · intro s1 h
    obtain ⟨hclose, -⟩ := reply_to_restarted_inv a c output s s1 h
    refine ⟨by rw [hclose]; rfl, ?_⟩
    apply reply_to_not_returned_no_dedupe
    intro s2 hcontra
    rw [h] at hcontra
    simp at hcontra
  · intro s1 h
    refine ⟨reply_to_unbound_inv a c output s s1 h, ?_⟩
    apply reply_to_not_returned_no_dedupe
    intro s2 hcontra
    rw [h] at hcontra
    simp at hcontra

/-- C1 instantiated: with the first attempt succeeding, the dedupe write
and sync follow the publish event, the returned store durably contains the
comment id, and reprocessing the comment does nothing. -/
theorem c1_dedupe_roundtrip_witness :
    reply_to firstSucceeds cexComment "body" emptyStore =
      (transientEvents cexComment.id "body" 0 ++
         [Event.publishAttempt cexComment.id "body",
          Event.dedupeWrite cexComment.id "r9", Event.syncStore],
       ReplyOutcome.returned ((emptyStore.setItem cexComment.id "r9").sync)) ∧
    ((emptyStore.setItem cexComment.id "r9").sync).disk =
      ((emptyStore.setItem cexComment.id "r9").sync).data ∧
    ((emptyStore.setItem cexComment.id "r9").sync).contains cexComment.id = true ∧
    (∀ env, comment_action env ((emptyStore.setItem cexComment.id "r9").sync) cexComment =
      ([], ActionOutcome.done ((emptyStore.setItem cexComment.id "r9").sync))) := by
  exact (c1_dedupe_roundtrip firstSucceeds cexComment "body" emptyStore).2.1 0 "r9"
    (by omega) (fun j hj => absurd hj (Nat.not_lt_zero j)) rfl

/-! Lemmas about token extraction and the branches of __comment_action. -/

theorem pyReplace_eq_filter (old : Char) :
    ∀ cs, pyReplace old cs = cs.filter (fun ch => ch ≠ old) := by
  intro cs
  induction cs with
  | nil => rfl
  | cons ch rest ih =>
    by_cases h : ch = old
    · simp [pyReplace, h, ih]
    · simp [pyReplace, h, ih]

theorem closeToken_spec : ∀ (cs mid after : List Char),
    closeToken cs = some (mid, after) →
      (∀ ch, ch ∈ mid → ch ≠ '\n') ∧ cs = mid ++ ']' :: ']' :: after := by
  intro cs
  induction cs using closeToken.induct with
  | case1 => intro mid after h; simp [closeToken] at h
  | case2 rest =>
    intro mid after h
    rw [closeToken.eq_2] at h
    obtain ⟨h1, h2⟩ := Prod.mk.injEq .. ▸ Option.some.inj h
    subst h1
    subst h2
    exact ⟨fun ch hch => absurd hch (List.not_mem_nil ch), rfl⟩
  | case3 rest hnot =>
    intro mid after h
    rw [closeToken.eq_3 _ _ hnot, if_pos rfl] at h
    cases h
  | case4 c rest hnot hne ih =>
    intro mid after h
    rw [closeToken.eq_3 _ _ hnot, if_neg hne] at h
    cases hct : closeToken rest with
    | none => rw [hct] at h; cases h
    | some p =>
      rw [hct] at h
      obtain ⟨mid0, after0⟩ := p
      simp only [Option.map_some', Option.some.injEq, Prod.mk.injEq] at h
      obtain ⟨hm, ha⟩ := h
      obtain ⟨hmem, heq⟩ := ih mid0 after0 hct
      subst hm
      subst ha
      constructor
      · intro ch hch
        rcases List.mem_cons.mp hch with rfl | hch2
        · exact hne
        · exact hmem ch hch2
      · rw [heq]
        simp

theorem findallFuel_shape : ∀ (fuel : Nat) (cs t : List Char),
    t ∈ findallFuel fuel cs →
      ∃ mid, t = '[' :: '[' :: (mid ++ [']', ']']) ∧
        ∀ ch, ch ∈ mid → ch ≠ '\n' := by
  intro fuel cs
  induction fuel, cs using findallFuel.induct with
  | case1 => intro t ht; simp [findallFuel] at ht
  | case2 => intro t ht; simp [findallFuel] at ht
  | case3 fuel rest mid after hsome ih =>
    intro t ht
    rw [findallFuel.eq_3, hsome] at ht
    rcases List.mem_cons.mp ht with rfl | ht2
    · exact ⟨mid, rfl, (closeToken_spec rest mid after hsome).1⟩
    · exact ih t ht2
  | case4 fuel rest hnone ih =>
    intro t ht
    rw [findallFuel.eq_3, hnone] at ht
    exact ih t ht
  | case5 fuel head rest hnot ih =>
    intro t ht
    rw [findallFuel.eq_4 _ _ _ hnot] at ht
    exact ih t ht

theorem publishCount_matchEvents (l : List String) :
    publishCount (l.map Event.matchToken) = 0 := by
  induction l with
  | nil => rfl
  | cons t rest ih => simp [publishCount_cons, ih, isPublishEvent]

theorem comment_action_no_tokens (env : Env) (s : Store) (c : Comment)
    (h : findallTokens (stripBackslashes c.body) = []) :
    comment_action env s c = ([], ActionOutcome.done s) := by
  unfold comment_action
  by_cases hcont : s.contains c.id = true
  · rw [if_pos hcont]
  · rw [if_neg hcont]
    simp only [h]
    rfl

theorem comment_action_format_error (env : Env) (s : Store) (c : Comment)
    (hcont : ¬ s.contains c.id = true)
    (htok : findallTokens (stripBackslashes c.body) ≠ [])
    (hfmt : format_comment ((findallTokens (stripBackslashes c.body)).map
        (fun token => find_best_match env.inklist token)) = Except.error ()) :
    comment_action env s c =
      ((findallTokens (stripBackslashes c.body)).map Event.matchToken,
       ActionOutcome.raised s) := by
  unfold comment_action
  rw [if_neg hcont]
  simp only
  rw [if_neg (by simpa [List.isEmpty_iff] using htok)]
  rw [hfmt]

theorem comment_action_formats_empty (env : Env) (s : Store) (c : Comment)
    (hcont : ¬ s.contains c.id = true)
    (htok : findallTokens (stripBackslashes c.body) ≠ [])
    (hfmt : format_comment ((findallTokens (stripBackslashes c.body)).map
        (fun token => find_best_match env.inklist token)) = Except.ok "") :
    comment_action env s c =
      ((findallTokens (stripBackslashes c.body)).map Event.matchToken,
       ActionOutcome.done s) := by
  unfold comment_action
  rw [if_neg hcont]
  simp only
  rw [if_neg (by simpa [List.isEmpty_iff] using htok)]
  rw [hfmt]
  simp

theorem comment_action_publishes (env : Env) (s : Store) (c : Comment) (b : String)
    (hcont : ¬ s.contains c.id = true)
    (htok : findallTokens (stripBackslashes c.body) ≠ [])
    (hfmt : format_comment ((findallTokens (stripBackslashes c.body)).map
        (fun token => find_best_match env.inklist token)) = Except.ok b)
    (hb : b ≠ "") :
    comment_action env s c =
      ((findallTokens (stripBackslashes c.body)).map Event.matchToken ++
         (reply_to (env.attempts c.id) c b s).1,
       match (reply_to (env.attempts c.id) c b s).2 with
       | ReplyOutcome.returned s1 => ActionOutcome.done s1
       | ReplyOutcome.restarted s1 => ActionOutcome.restarted s1
       | ReplyOutcome.unboundError s1 => ActionOutcome.raised s1) := by
  unfold comment_action
  rw [if_neg hcont]
  simp only
  rw [if_neg (by simpa [List.isEmpty_iff] using htok)]
  rw [hfmt]
  simp only
  rw [if_neg hb]
  obtain ⟨evs, o, hr⟩ : ∃ evs o, reply_to (env.attempts c.id) c b s = (evs, o) :=
    ⟨_, _, rfl⟩
  rw [hr]
  cases o <;> rfl

/-- C5: for every comment whose id already has a dedupe record, processing
returns immediately after the lookup: __comment_action produces no events
at all — in particular no token-matching events and zero publish calls —
and returns the store unchanged. -/
theorem c5_dedupe_checked_first (env : Env) (s : Store) (c : Comment)
    (h : s.contains c.id = true) :
    comment_action env s c = ([], ActionOutcome.done s) ∧
    publishCount (comment_action env s c).1 = 0 ∧
    (∀ t, Event.matchToken t ∉ (comment_action env s c).1) := by
  have hc := comment_action_contains env s c h
  refine ⟨hc, by rw [hc]; rfl, ?_⟩
  intro t hmem
  rw [hc] at hmem
  simp at hmem

/-- C5 instantiated: a store already holding id x skips the comment. -/
theorem c5_dedupe_checked_first_witness :
    comment_action env0 storeWithX { id := "x", body := "[[abcdef]]" } =
      ([], ActionOutcome.done storeWithX) :=
  (c5_dedupe_checked_first env0 storeWithX { id := "x", body := "[[abcdef]]" } rfl).1

/-- C6: a publish call occurs for a comment only if, after backslash
stripping, the body contains at least one bracket token and the formatted
reply body is a non-empty string; a comment with no tokens is returned
untouched with no events, and a comment whose tokens format to the empty
string is never published and its store — hence its dedupe content — is
unchanged. -/
theorem c6_publish_requires_tokens_and_body (env : Env) (s : Store) (c : Comment) :
    (0 < publishCount (comment_action env s c).1 →
      findallTokens (stripBackslashes c.body) ≠ [] ∧
      ∃ b, format_comment ((findallTokens (stripBackslashes c.body)).map
          (fun token => find_best_match env.inklist token)) = Except.ok b ∧
        b ≠ "") ∧
    (findallTokens (stripBackslashes c.body) = [] →
      comment_action env s c = ([], ActionOutcome.done s)) ∧
    (format_comment ((findallTokens (stripBackslashes c.body)).map
        (fun token => find_best_match env.inklist token)) = Except.ok "" →
      publishCount (comment_action env s c).1 = 0 ∧
      (comment_action env s c).2 = ActionOutcome.done s) := by
  by_cases hcont : s.contains c.id = true
  · have hc := comment_action_contains env s c hcont
    refine ⟨?_, fun _ => hc, fun _ => ?_⟩
    · intro h
      rw [hc] at h
      simp [publishCount_nil] at h
    · rw [hc]
      exact ⟨rfl, rfl⟩
  · by_cases htok : findallTokens (stripBackslashes c.body) = []
    · have hc := comment_action_no_tokens env s c htok
      refine ⟨?_, fun _ => hc, fun _ => ?_⟩
      · intro h
        rw [hc] at h
        simp [publishCount_nil] at h
      · rw [hc]
        exact ⟨rfl, rfl⟩
    · obtain ⟨fr, hfmt⟩ : ∃ fr, format_comment
          ((findallTokens (stripBackslashes c.body)).map
            (fun token => find_best_match env.inklist token)) = fr := ⟨_, rfl⟩
      cases fr with
      | error e =>
        obtain rfl : e = () := rfl
        have hc := comment_action_format_error env s c hcont htok hfmt
        refine ⟨?_, fun ht => absurd ht htok, fun hok => ?_⟩
        · intro h
          rw [hc] at h
          simp [publishCount_matchEvents] at h
        · rw [hfmt] at hok
          cases hok
      | ok b =>
        by_cases hb : b = ""
        · subst hb
          have hc := comment_action_formats_empty env s c hcont htok hfmt
          refine ⟨?_, fun ht => absurd ht htok, fun _ => ?_⟩
          · intro h
            rw [hc] at h
            simp [publishCount_matchEvents] at h
          · rw [hc]
            exact ⟨by simpa using publishCount_matchEvents _, rfl⟩
        · refine ⟨fun _ => ⟨htok, b, hfmt, hb⟩, fun ht => absurd ht htok, ?_⟩
          intro hok
          rw [hfmt] at hok
          have hbe : b = "" := by simpa using hok
          exact absurd hbe hb

/-- C6 instantiated: a comment with no bracket tokens is never published. -/
theorem c6_publish_requires_tokens_and_body_witness :
    comment_action env0 emptyStore plainComment =
      ([], ActionOutcome.done emptyStore) :=
  (c6_publish_requires_tokens_and_body env0 emptyStore plainComment).2.1 rfl

/-- C10: for every comment not yet recorded, the token list handed to the
Match Engine is obtained by first deleting every backslash character
anywhere in the body (the strip equals filtering out backslashes) and then
taking the non-greedy bracket matches with their delimiters: the trace of
__comment_action begins with exactly one matchToken event per extracted
token in order, and every extracted token is two opening brackets, a
newline-free middle, then two closing brackets — its length is the
middle's plus 4, so the bracket characters are part of the string the
patterns are matched against and count toward the threshold. -/
theorem c10_token_extraction (env : Env) (s : Store) (c : Comment)
    (hcont : s.contains c.id = false) :
    (∃ rest, (comment_action env s c).1 =
      (findallTokens (stripBackslashes c.body)).map Event.matchToken ++ rest) ∧
    (stripBackslashes c.body).data = c.body.data.filter (fun ch => ch ≠ '\\') ∧
    (∀ t, t ∈ findallTokens (stripBackslashes c.body) →
      ∃ mid, t.data = '[' :: '[' :: (mid ++ [']', ']']) ∧
        (∀ ch, ch ∈ mid → ch ≠ '\n') ∧ t.length = mid.length + 4) := by
  have hcont' : ¬ s.contains c.id = true := by rw [hcont]; simp
  refine ⟨?_, ?_, ?_⟩
  · by_cases htok : findallTokens (stripBackslashes c.body) = []
    · refine ⟨[], ?_⟩
      rw [comment_action_no_tokens env s c htok, htok]
      rfl
    · obtain ⟨fr, hfmt⟩ : ∃ fr, format_comment
          ((findallTokens (stripBackslashes c.body)).map
            (fun token => find_best_match env.inklist token)) = fr := ⟨_, rfl⟩
      cases fr with
      | error e =>
        obtain rfl : e = () := rfl
        refine ⟨[], ?_⟩
        rw [comment_action_format_error env s c hcont' htok hfmt]
        simp
      | ok b =>
        by_cases hb : b = ""
        · subst hb
          refine ⟨[], ?_⟩
          rw [comment_action_formats_empty env s c hcont' htok hfmt]
          simp
        · refine ⟨(reply_to (env.attempts c.id) c b s).1, ?_⟩
          rw [comment_action_publishes env s c b hcont' htok hfmt hb]
  · unfold stripBackslashes
    rw [pyReplace_eq_filter]
  · intro t ht
    unfold findallTokens at ht
    rw [List.mem_map] at ht
    obtain ⟨cs, hcs, rfl⟩ := ht
    obtain ⟨mid, hshape, hnl⟩ :=
      findallFuel_shape (stripBackslashes c.body).data.length
        (stripBackslashes c.body).data cs hcs
    refine ⟨mid, by simpa using hshape, hnl, ?_⟩
    have hlen : (String.mk cs).length = cs.length := rfl
    rw [hlen, hshape]
    simp

/-- C10 instantiated: the escaped sample body loses its backslash and
yields the bracket-delimited token of length 10. -/
theorem c10_token_extraction_witness :
    (stripBackslashes escapedComment.body).data =
      escapedComment.body.data.filter (fun ch => ch ≠ '\\') ∧
    (∀ t, t ∈ findallTokens (stripBackslashes escapedComment.body) →
      ∃ mid, t.data = '[' :: '[' :: (mid ++ [']', ']']) ∧
        (∀ ch, ch ∈ mid → ch ≠ '\n') ∧ t.length = mid.length + 4) := by
  have h := c10_token_extraction env0 emptyStore escapedComment rfl
  exact ⟨h.2.1, h.2.2⟩

/-! Lemmas about the supervisor restart cycle. -/

theorem comment_action_restarted_inv (env : Env) (s : Store) (c : Comment)
    (s1 : Store)
    (h : (comment_action env s c).2 = ActionOutcome.restarted s1) :
    s1.isOpen = false ∧
    ∃ evs0, (comment_action env s c).1 =
      evs0 ++ [Event.closeStore, Event.sleep] := by
  by_cases hcont : s.contains c.id = true
  · rw [comment_action_contains env s c hcont] at h
    simp at h
  · by_cases htok : findallTokens (stripBackslashes c.body) = []
    · rw [comment_action_no_tokens env s c htok] at h
      simp at h
    · obtain ⟨fr, hfmt⟩ : ∃ fr, format_comment
          ((findallTokens (stripBackslashes c.body)).map
            (fun token => find_best_match env.inklist token)) = fr := ⟨_, rfl⟩
      cases fr with
      | error e =>
        obtain rfl : e = () := rfl
        rw [comment_action_format_error env s c hcont htok hfmt] at h
        simp at h
      | ok b =>
        by_cases hb : b = ""
        · subst hb
          rw [comment_action_formats_empty env s c hcont htok hfmt] at h
          simp at h
        · have hc := comment_action_publishes env s c b hcont htok hfmt hb
          obtain ⟨evs, o, hr⟩ :
              ∃ evs o, reply_to (env.attempts c.id) c b s = (evs, o) :=
            ⟨_, _, rfl⟩
          rw [hc, hr] at h ⊢
          cases o with
          | returned s2 => simp at h
          | restarted s2 =>
            have hs2 : s2 = s1 := by simpa using h
            subst hs2
            obtain ⟨hclose, evs0, hev⟩ :=
              reply_to_restarted_inv (env.attempts c.id) c b s s2 (by rw [hr])
            rw [hr] at hev
            simp only at hev
            refine ⟨by rw [hclose]; rfl, ?_⟩
            refine ⟨(findallTokens (stripBackslashes c.body)).map Event.matchToken
              ++ evs0, ?_⟩
            simp only
            rw [hev]
            simp
          | unboundError s2 => simp at h

theorem inkbot_loop_restart_inv (env : Env) :
    ∀ (items : List StreamItem) (s s1 : Store),
      (inkbot_loop env s items).2 = SessionOutcome.restartRequested s1 →
      s1.isOpen = false ∧
      ∃ evs0, (inkbot_loop env s items).1 =
        evs0 ++ [Event.closeStore, Event.sleep] := by
  intro items
  induction items with
  | nil => intro s s1 h; simp [inkbot_loop] at h
  | cons item rest ih =>
    intro s s1 h
    cases item with
    | comment c =>
      obtain ⟨evs, o, hc⟩ : ∃ evs o, comment_action env s c = (evs, o) :=
        ⟨_, _, rfl⟩
      simp only [inkbot_loop] at h ⊢
      rw [hc] at h ⊢
      cases o with
      | done s2 =>
        simp only at h ⊢
        obtain ⟨ho, evs0, hev⟩ := ih s2 s1 h
        refine ⟨ho, evs ++ evs0, ?_⟩
        rw [hev]
        simp
      | restarted s2 =>
        have hs2 : s2 = s1 := by simpa using h
        subst hs2
        obtain ⟨ho, evs0, hev⟩ :=
          comment_action_restarted_inv env s c s2 (by rw [hc])
        rw [hc] at hev
        simp only at hev
        exact ⟨ho, evs0, hev⟩
      | raised s2 =>
        have hs2 : s2.close = s1 := by simpa using h
        refine ⟨by rw [← hs2]; rfl, evs, ?_⟩
        rfl
    | streamError =>
      have hs : s.close = s1 := by simpa [inkbot_loop] using h
      refine ⟨by rw [← hs]; rfl, [], ?_⟩
      rfl
    | interrupt => simp [inkbot_loop] at h

theorem inkbot_loop_interrupt_inv (env : Env) :
    ∀ (items : List StreamItem) (s s1 : Store),
      (inkbot_loop env s items).2 = SessionOutcome.interrupted s1 →
      s1.isOpen = false ∧
      ∃ evs0, (inkbot_loop env s items).1 = evs0 ++ [Event.closeStore] := by
  intro items
  induction items with
  | nil => intro s s1 h; simp [inkbot_loop] at h
  | cons item rest ih =>
    intro s s1 h
    cases item with
    | comment c =>
      obtain ⟨evs, o, hc⟩ : ∃ evs o, comment_action env s c = (evs, o) :=
        ⟨_, _, rfl⟩
      simp only [inkbot_loop] at h ⊢
      rw [hc] at h ⊢
      cases o with
      | done s2 =>
        simp only at h ⊢
        obtain ⟨ho, evs0, hev⟩ := ih s2 s1 h
        refine ⟨ho, evs ++ evs0, ?_⟩
        rw [hev]
        simp
      | restarted s2 => simp at h
      | raised s2 => simp at h
    | streamError => simp [inkbot_loop] at h
    | interrupt =>
      have hs : s.close = s1 := by simpa [inkbot_loop] using h
      refine ⟨by rw [← hs]; rfl, [], ?_⟩
      rfl

/-- C7: on any failure escaping the consumer loop the supervisor closes
the dedupe store, waits the fixed interval (the session trace ends with
the close and sleep events), then reinitialises everything from scratch —
re-authenticates, reloads the rules, reopens the dedupe store from its
durable contents, and resumes consumption on the next stream; an
operator-requested interrupt performs the same cleanup (close the store,
the trace ends with the close event) but does not restart. -/
theorem c7_supervisor_restart (env : Env) (disk : List (String × String))
    (items nextItems : List StreamItem) :
    (∀ s1, (inkbot_loop env (Store.reopen disk) items).2 =
        SessionOutcome.restartRequested s1 →
      s1.isOpen = false ∧
      (∃ evs0, (inkbot_loop env (Store.reopen disk) items).1 =
        evs0 ++ [Event.closeStore, Event.sleep]) ∧
      supervise env disk items nextItems =
        (startInitEvents ++ (inkbot_loop env (Store.reopen disk) items).1 ++
           startInitEvents ++
           (inkbot_loop env (Store.reopen s1.disk) nextItems).1,
         (inkbot_loop env (Store.reopen s1.disk) nextItems).2)) ∧
    (∀ s1, (inkbot_loop env (Store.reopen disk) items).2 =
        SessionOutcome.interrupted s1 →
      s1.isOpen = false ∧
      (∃ evs0, (inkbot_loop env (Store.reopen disk) items).1 =
        evs0 ++ [Event.closeStore]) ∧
      supervise env disk items nextItems =
        (startInitEvents ++ (inkbot_loop env (Store.reopen disk) items).1,
         SessionOutcome.interrupted s1)) := by
  constructor
  · intro s1 h
    obtain ⟨ho, he⟩ := inkbot_loop_restart_inv env items (Store.reopen disk) s1 h
    refine ⟨ho, he, ?_⟩
    unfold supervise
    simp only
    rw [h]
  · intro s1 h
    obtain ⟨ho, he⟩ := inkbot_loop_interrupt_inv env items (Store.reopen disk) s1 h
    refine ⟨ho, he, ?_⟩
    unfold supervise
    simp only
    rw [h]

/-- C7 instantiated: an interrupt closes the store and the supervisor does
not restart. -/
theorem c7_supervisor_restart_witness :
    ((Store.reopen []).close).isOpen = false ∧
    (∃ evs0, (inkbot_loop env0 (Store.reopen []) [StreamItem.interrupt]).1 =
      evs0 ++ [Event.closeStore]) ∧
    supervise env0 [] [StreamItem.interrupt] [] =
      (startInitEvents ++
         (inkbot_loop env0 (Store.reopen []) [StreamItem.interrupt]).1,
       SessionOutcome.interrupted ((Store.reopen []).close)) :=
  (c7_supervisor_restart env0 [] [StreamItem.interrupt] []).2
    ((Store.reopen []).close) rfl

end Inkbot
